import Mathlib

/-!
Verification development for the realtime transport and audio-streaming
pipeline of the `cometapi-realtime-agents` repository.

The transport is the class `CometAPIWebSocket` (native WebSocket client):
connection lifecycle, event send/receive, listener registry, microphone
capture path (Float32 -> PCM16 -> base64 -> `input_audio_buffer.append`),
and the sequential audio playback queue.

The embedding below translates the class's fields and methods into pure
Lean functions over an explicit state.  Numeric audio samples are modelled
as rationals (the JS arithmetic involved in every statement proved here is
exact at the inputs considered); JS `Int16Array` element conversion is
modelled by truncation toward zero followed by the 16-bit wrap, exactly as
ECMAScript's ToInt16 prescribes; `btoa`/`atob` are the standard base64
encoder/decoder.
-/

namespace CometAPIWebSocket

/-- The four ready states of a browser WebSocket handle. -/
inductive WSReadyState where
  | CONNECTING
  | OPEN
  | CLOSING
  | CLOSED
deriving DecidableEq, Repr

/-- The event envelope (`RealtimeEvent` in the source): a `type` tag, an
optional `event_id`, and the optional payload fields used by this core. -/
structure RealtimeEvent where
  type : String
  event_id : Option String := none
  audio : Option String := none
  code : Option Nat := none
  reason : Option String := none
  delta : Option String := none
deriving DecidableEq, Repr

/-- Listeners are identified by numbers; a registry maps an event-type
label (or the wildcard label `"*"`) to its insertion-ordered listeners
(the source stores a `Map<string, Set<handler>>`). -/
abbrev Registry := List (String × List Nat)

/-- State of one `CometAPIWebSocket` instance.  `ws` is the readyState of
the stored socket handle (`none` when `this.ws` is `null`); the three
`Bool` fields record whether the corresponding device resource is held;
`openedLinks` instruments how many times `new WebSocket(...)` ran. -/
structure ClientState where
  ws : Option WSReadyState
  eventHandlers : Registry
  audioContext : Bool
  mediaStream : Bool
  audioProcessor : Bool
  audioQueue : List String
  isPlaying : Bool
  openedLinks : Nat
deriving DecidableEq, Repr

/-- State of a freshly constructed client. -/
def initialState : ClientState :=
  { ws := none, eventHandlers := [], audioContext := false, mediaStream := false,
    audioProcessor := false, audioQueue := [], isPlaying := false, openedLinks := 0 }

/-- `connect()` (synchronous prefix of the method body): it performs no
lifecycle-state check and unconditionally runs `new WebSocket(wsUrl, ...)`,
storing the fresh handle (in `CONNECTING` state) over whatever was there. -/
def connect (s : ClientState) : ClientState :=
  { s with ws := some WSReadyState.CONNECTING, openedLinks := s.openedLinks + 1 }

/-- `stopAudioCapture()`: disconnect the processor if present, stop the
media-stream tracks if present, close the audio context if present. -/
def stopAudioCapture (s : ClientState) : ClientState :=
  let s1 := if s.audioProcessor then { s with audioProcessor := false } else s
  let s2 := if s1.mediaStream then { s1 with mediaStream := false } else s1
  if s2.audioContext then { s2 with audioContext := false } else s2

/-- `cleanup()`: stop capture, drop the playback queue, reset the playing
flag, clear the listener registry. -/
def cleanup (s : ClientState) : ClientState :=
  { stopAudioCapture s with audioQueue := [], isPlaying := false, eventHandlers := [] }

/-- `close()`: run `cleanup()`, then close and null the socket handle if
one is stored. -/
def close (s : ClientState) : ClientState :=
  let s1 := cleanup s
  if s1.ws.isSome then { s1 with ws := none } else s1

/-- Listener lookup: `this.eventHandlers.get(k)`, with a missing entry
read as the empty listener list. -/
def lookupHandlers (reg : Registry) (k : String) : List Nat :=
  match reg.find? (fun p => p.1 == k) with
  | some p => p.2
  | none => []

/-- One `handlers.forEach((handler) => handler(event))` pass.  `throws h`
says listener `h` raises when invoked.  Returns the invocations performed
(each listener paired with the event it received) and whether an exception
escaped the pass: the source wraps no try/catch around the calls, so a
raising listener ends the iteration and the exception propagates. -/
def runHandlers (throws : Nat → Bool) (e : RealtimeEvent) : List Nat → List (Nat × RealtimeEvent) × Bool
  | [] => ([], false)
  | h :: rest =>
    if throws h then ([(h, e)], true)
    else
      let r := runHandlers throws e rest
      ((h, e) :: r.1, r.2)

/-- `emit(event)`: invoke the listeners under `event.type`, then (only if
that pass finished without an exception) the listeners under `"*"`. -/
def emit (throws : Nat → Bool) (reg : Registry) (e : RealtimeEvent) :
    List (Nat × RealtimeEvent) × Bool :=
  let r1 := runHandlers throws e (lookupHandlers reg e.type)
  if r1.2 then r1
  else
    let r2 := runHandlers throws e (lookupHandlers reg "*")
    (r1.1 ++ r2.1, r2.2)

/-- The `close` listener installed by `connect()`: after the diagnostics,
it runs `this.cleanup()` and then
`this.emit({ type: "close", code: event.code, reason: event.reason })`.
Returns the resulting state and the deliveries the emit performed. -/
def onWsClose (throws : Nat → Bool) (s : ClientState) (closeCode : Nat) (closeReason : String) :
    ClientState × List (Nat × RealtimeEvent) :=
  let s1 := cleanup s
  let r := emit throws s1.eventHandlers
    { type := "close", code := some closeCode, reason := some closeReason }
  (s1, r.1)

/-! ### Codec: Float32 -> PCM16 (`convertFloat32ToPCM16`) and the inline
PCM16 -> Float32 decode of `playNextAudioChunk`. -/

/-- JS truncation toward zero (the integer step of ECMAScript ToInt16). -/
def ratTrunc (q : ℚ) : ℤ :=
  if q < 0 then ⌈q⌉ else ⌊q⌋

/-- The 16-bit wrap of ECMAScript ToInt16: reduce modulo 2^16 into
`[0, 65536)` and reinterpret the top half as negative. -/
def toInt16 (n : ℤ) : ℤ :=
  let m := n % 65536
  if 32768 ≤ m then m - 65536 else m

/-- The per-sample body of `convertFloat32ToPCM16`:
`s = Math.max(-1, Math.min(1, x)); pcm16[i] = s < 0 ? s * 0x8000 : s * 0x7fff`,
where the `Int16Array` element store applies ToInt16. -/
def pcm16SampleInt (x : ℚ) : ℤ :=
  let s := max (-1) (min 1 x)
  toInt16 (ratTrunc (if s < 0 then s * 32768 else s * 32767))

/-- Little-endian byte pair of a 16-bit value, as the `Int16Array` buffer
lays it out. -/
def int16ToBytesLE (v : ℤ) : List ℕ :=
  let u := (v % 65536).toNat
  [u % 256, u / 256]

/-- `convertFloat32ToPCM16(float32Array)`: per-sample clamp/scale/store,
returning the backing buffer's bytes (little-endian, two per sample). -/
def convertFloat32ToPCM16 (xs : List ℚ) : List ℕ :=
  (xs.map pcm16SampleInt).flatMap int16ToBytesLE

/-- Reading the buffer back through `new Int16Array(arrayBuffer)`:
consecutive little-endian byte pairs as signed 16-bit values. -/
def bytesToInt16s : List ℕ → List ℤ
  | b0 :: b1 :: rest => toInt16 ((b0 : ℤ) + 256 * (b1 : ℤ)) :: bytesToInt16s rest
  | _ => []

/-- The per-element decode of `playNextAudioChunk`:
`float32[i] = pcm16[i] / (pcm16[i] < 0 ? 0x8000 : 0x7fff)`. -/
def pcm16ToFloat (v : ℤ) : ℚ :=
  (v : ℚ) / (if v < 0 then 32768 else 32767)

/-- The PCM16-to-float stage of `playNextAudioChunk`, as a function of the
chunk's bytes. -/
def decodeSamples (bytes : List ℕ) : List ℚ :=
  (bytesToInt16s bytes).map pcm16ToFloat

/-- Modelled from the spec: the codec`s encode as §4.1 words it — identical
clamp and scale, but rounding toward the nearest integer where the code's
`Int16Array` store truncates.  Used only to compare against
`convertFloat32ToPCM16`. -/
def encodeSamplesSpec (xs : List ℚ) : List ℕ :=
  (xs.map fun x =>
    let s := max (-1) (min 1 x)
    toInt16 (round (if s < 0 then s * 32768 else s * 32767))).flatMap int16ToBytesLE

/-! ### Base64 (`arrayBufferToBase64` / `base64ToArrayBuffer`).
The source builds a binary string from the bytes and calls the platform's
`btoa`/`atob`, which are the standard base64 encoder/decoder; they are
embedded here directly (RFC 4648 alphabet, `=` padding). -/

/-- The base64 alphabet. -/
def base64Chars : List Char :=
  "ABCDEFGHIJKLMNOPQRSTUVWXYZabcdefghijklmnopqrstuvwxyz0123456789+/".toList

/-- Character for a sextet value. -/
def sextetChar (n : ℕ) : Char := base64Chars.getD n '='

/-- Sextet value of an alphabet character. -/
def charSextet (c : Char) : ℕ := base64Chars.indexOf c

/-- `btoa` on a byte list: 3 bytes -> 4 characters, with `=` padding. -/
def btoaAux : List ℕ → List Char
  | [] => []
  | [b0] => [sextetChar (b0 / 4), sextetChar (b0 % 4 * 16), '=', '=']
  | [b0, b1] =>
      [sextetChar (b0 / 4), sextetChar (b0 % 4 * 16 + b1 / 16), sextetChar (b1 % 16 * 4), '=']
  | b0 :: b1 :: b2 :: rest =>
      sextetChar (b0 / 4) :: sextetChar (b0 % 4 * 16 + b1 / 16) ::
      sextetChar (b1 % 16 * 4 + b2 / 64) :: sextetChar (b2 % 64) :: btoaAux rest

/-- `arrayBufferToBase64(buffer)`: binary string of the bytes, then `btoa`. -/
def arrayBufferToBase64 (bytes : List ℕ) : String := ⟨btoaAux bytes⟩

/-- `atob` on the character list: 4 characters -> up to 3 bytes, honouring
`=` padding. -/
def atobAux : List Char → List ℕ
  | c0 :: c1 :: c2 :: c3 :: rest =>
      if c2 = '=' then
        [charSextet c0 * 4 + charSextet c1 / 16]
      else if c3 = '=' then
        [charSextet c0 * 4 + charSextet c1 / 16,
         charSextet c1 % 16 * 16 + charSextet c2 / 4]
      else
        (charSextet c0 * 4 + charSextet c1 / 16) ::
        (charSextet c1 % 16 * 16 + charSextet c2 / 4) ::
        (charSextet c2 % 4 * 64 + charSextet c3) :: atobAux rest
  | _ => []

/-- `base64ToArrayBuffer(base64)`: `atob`, then the bytes of the binary
string. -/
def base64ToArrayBuffer (s : String) : List ℕ := atobAux s.toList

/-! ### Playback queue (`queueAudio` / `playNextAudioChunk`).
The queue, the `isPlaying` flag, and the `source.onended` completion form
a small state machine.  `startedLog` instruments the chunks whose playback
was started, in order; `outstanding` says a started playback's `onended`
has not fired yet; `doubleStart` latches if a start is ever issued while
one is already outstanding. -/

structure PlayerState where
  audioQueue : List String
  isPlaying : Bool
  startedLog : List String
  outstanding : Bool
  doubleStart : Bool
deriving DecidableEq, Repr

/-- The player before any chunk arrives. -/
def initPlayer : PlayerState :=
  { audioQueue := [], isPlaying := false, startedLog := [], outstanding := false,
    doubleStart := false }

/-- `playNextAudioChunk()`: with an empty queue, clear `isPlaying` and
return; otherwise set `isPlaying`, shift the head chunk and start its
playback (registering `onended`). -/
def playNextAudioChunk (s : PlayerState) : PlayerState :=
  match s.audioQueue with
  | [] => { s with isPlaying := false }
  | c :: rest =>
      { s with isPlaying := true, audioQueue := rest,
               startedLog := s.startedLog ++ [c],
               doubleStart := s.doubleStart || s.outstanding,
               outstanding := true }

/-- `queueAudio(base64Audio)`: push at the tail; if not currently playing,
begin playback of the head. -/
def queueAudio (s : PlayerState) (c : String) : PlayerState :=
  let s1 := { s with audioQueue := s.audioQueue ++ [c] }
  if s1.isPlaying then s1 else playNextAudioChunk s1

/-- The discrete events driving the player: a chunk arriving from an
audio-delta message, or the `onended` completion of the chunk being
played.  `onended` belongs to a started source, so it can only fire while
a playback is outstanding; a completion event in any other state has no
source to come from and is a no-op. -/
inductive PlayerOp where
  | enqueue (chunk : String)
  | ended
deriving DecidableEq, Repr

/-- One step of the player machine. -/
def playerStep (s : PlayerState) : PlayerOp → PlayerState
  | .enqueue c => queueAudio s c
  | .ended => if s.outstanding then playNextAudioChunk { s with outstanding := false } else s

/-- Run a sequence of player events. -/
def playerRun (s : PlayerState) : List PlayerOp → PlayerState
  | [] => s
  | op :: rest => playerRun (playerStep s op) rest

/-- The chunks enqueued by a sequence of events, in arrival order. -/
def enqueuedOf : List PlayerOp → List String
  | [] => []
  | .enqueue c :: rest => c :: enqueuedOf rest
  | .ended :: rest => enqueuedOf rest

/-! ### Outbound send paths (`sendEvent` and the capture tick). -/

/-- `sendEvent(event)`: if the socket is absent or not `OPEN`, log and
return (nothing transmitted); otherwise assign `crypto.randomUUID()` as
`event_id` when the event lacks one, serialize and transmit.  `uuid`
stands for the `randomUUID()` result of this call; the returned list holds
the transmitted message, if any. -/
def sendEvent (wsState : Option WSReadyState) (uuid : String) (e : RealtimeEvent) :
    List RealtimeEvent :=
  if wsState = some WSReadyState.OPEN then
    [if e.event_id = none then { e with event_id := some uuid } else e]
  else []

/-- The `onaudioprocess` handler installed by `startAudioCaptureSync`:
increment the packet counter; if the socket is absent or not `OPEN`, drop
the block; otherwise encode it (Float32 -> PCM16 -> base64) and transmit
`{ type: "input_audio_buffer.append", audio }` directly over `ws.send`
(bypassing `sendEvent`).  Returns the new counter and the transmitted
messages. -/
def onaudioprocess (wsState : Option WSReadyState) (audioPacketCount : ℕ) (block : List ℚ) :
    ℕ × List RealtimeEvent :=
  let count := audioPacketCount + 1
  if wsState = some WSReadyState.OPEN then
    (count, [{ type := "input_audio_buffer.append",
               audio := some (arrayBufferToBase64 (convertFloat32ToPCM16 block)) }])
  else (count, [])

end CometAPIWebSocket

open CometAPIWebSocket

/-! ## Helper lemmas -/

/-- `cleanup` leaves only the socket handle and the instrumentation
counter; every resource field is reset. -/
theorem cleanup_eq (s : ClientState) :
    cleanup s =
      { ws := s.ws, eventHandlers := [], audioContext := false, mediaStream := false,
        audioProcessor := false, audioQueue := [], isPlaying := false,
        openedLinks := s.openedLinks } := by
  rcases s with ⟨ws, reg, ac, ms, ap, q, p, n⟩
  simp only [cleanup, stopAudioCapture]
  split_ifs <;> simp_all

/-- `close` additionally nulls the socket handle. -/
theorem close_eq (s : ClientState) :
    close s =
      { ws := none, eventHandlers := [], audioContext := false, mediaStream := false,
        audioProcessor := false, audioQueue := [], isPlaying := false,
        openedLinks := s.openedLinks } := by
  rw [close, cleanup_eq]
  cases s.ws <;> simp

/-- A pass over listeners none of which raises invokes all of them in
order and lets no exception escape. -/
theorem runHandlers_no_throw (throws : ℕ → Bool) (e : RealtimeEvent) :
    ∀ hs : List ℕ, (∀ h ∈ hs, throws h = false) →
      runHandlers throws e hs = (hs.map fun h => (h, e), false) := by
  intro hs
  induction hs with
  | nil => intro _; rfl
  | cons h rest ih =>
    intro hall
    have hh : throws h = false := hall h (by simp)
    simp [runHandlers, hh, ih fun x hx => hall x (by simp [hx])]

/-- A pass over listeners whose first raising listener is `t` invokes the
prefix before `t` and `t` itself, then stops with the exception escaping. -/
theorem runHandlers_throw (throws : ℕ → Bool) (e : RealtimeEvent) (t : ℕ) (l2 : List ℕ)
    (ht : throws t = true) :
    ∀ l1 : List ℕ, (∀ h ∈ l1, throws h = false) →
      runHandlers throws e (l1 ++ t :: l2) = (l1.map (fun h => (h, e)) ++ [(t, e)], true) := by
  intro l1
  induction l1 with
  | nil => intro _; simp [runHandlers, ht]
  | cons h rest ih =>
    intro hall
    have hh : throws h = false := hall h (by simp)
    simp [runHandlers, hh, ih fun x hx => hall x (by simp [hx])]

/-! ## Claims -/

/-- C10: `close()` is idempotent and total — after any state, a single
`close()` reaches the fully-torn-down state (no stored link, empty audio
queue, playing flag false, empty listener registry, capture resources
released), a repeated `close()` changes nothing further, and a `close()`
on a never-connected client leaves it exactly in its initial state. -/
theorem close_idempotent_and_total (s : ClientState) :
    close (close s) = close s ∧
    (close s).ws = none ∧ (close s).audioQueue = [] ∧ (close s).isPlaying = false ∧
    (close s).eventHandlers = [] ∧ (close s).mediaStream = false ∧
    (close s).audioProcessor = false ∧ (close s).audioContext = false ∧
    close initialState = initialState := by
  refine ⟨?_, ?_, ?_, ?_, ?_, ?_, ?_, ?_, ?_⟩ <;>
    simp [close_eq, initialState]

/-- C2 counterexample: with the client in the `OPEN` lifecycle state
(stored handle open, one link opened so far), a further `connect()` is not
a no-op and does open a second underlying link — the source method checks
no state before running `new WebSocket(...)`. -/
theorem connect_second_call_counterexample :
    (connect { initialState with ws := some WSReadyState.OPEN, openedLinks := 1 }).openedLinks
        = 2 ∧
    connect { initialState with ws := some WSReadyState.OPEN, openedLinks := 1 }
        ≠ { initialState with ws := some WSReadyState.OPEN, openedLinks := 1 } := by
  refine ⟨rfl, ?_⟩
  intro he
  have h := congrArg ClientState.openedLinks he
  simp [connect] at h

/-- C2 amended: a further `connect()` while `CONNECTING` or `OPEN` is
neither rejected nor a no-op: it unconditionally opens a second underlying
link (the opened-link count increases by one) and overwrites the stored
handle with the fresh `CONNECTING` socket; the double-connect guard lives
only in the calling hook, not in the transport. -/
theorem connect_no_state_guard (s : ClientState)
    (h : s.ws = some WSReadyState.CONNECTING ∨ s.ws = some WSReadyState.OPEN) :
    (connect s).openedLinks = s.openedLinks + 1 ∧
    (connect s).ws = some WSReadyState.CONNECTING ∧
    connect s ≠ s := by
  refine ⟨rfl, rfl, ?_⟩
  intro he
  have hn := congrArg ClientState.openedLinks he
  simp [connect] at hn

/-- Witness for `connect_no_state_guard` at a concrete `OPEN` client. -/
theorem connect_no_state_guard_witness :
    (connect { initialState with ws := some WSReadyState.OPEN, openedLinks := 3 }).openedLinks
        = 3 + 1 ∧
    (connect { initialState with ws := some WSReadyState.OPEN, openedLinks := 3 }).ws
        = some WSReadyState.CONNECTING ∧
    connect { initialState with ws := some WSReadyState.OPEN, openedLinks := 3 }
        ≠ { initialState with ws := some WSReadyState.OPEN, openedLinks := 3 } :=
  connect_no_state_guard _ (Or.inr rfl)

/-- C1: the close listener runs `cleanup()` (capture stopped, playback
queue drained, playing flag reset, listener registry cleared) and only
then emits the synthetic `close` event — over the already-cleared
registry, so the event is delivered to no listener at all, not to exactly
one per pre-subscribed listener as claimed. -/
theorem onWsClose_delivers_nothing (throws : ℕ → Bool) (s : ClientState)
    (closeCode : ℕ) (closeReason : String) :
    (onWsClose throws s closeCode closeReason).2 = [] ∧
    (onWsClose throws s closeCode closeReason).1 = cleanup s ∧
    (cleanup s).eventHandlers = [] ∧ (cleanup s).audioQueue = [] ∧
    (cleanup s).isPlaying = false ∧ (cleanup s).audioProcessor = false ∧
    (cleanup s).mediaStream = false ∧ (cleanup s).audioContext = false := by
  refine ⟨?_, rfl, ?_, ?_, ?_, ?_, ?_, ?_⟩ <;>
    simp [onWsClose, emit, cleanup_eq, lookupHandlers, runHandlers]

/-- C3 counterexample: listener `1` under type `"foo"` raises and listener
`2` under the wildcard label is registered; dispatching a `"foo"` event
invokes only listener `1` and the exception escapes `emit` — listener `2`
never receives the event and nothing inside `emit` catches the raise. -/
theorem emit_listener_throw_counterexample :
    emit (fun n => n == 1) [("foo", [1]), ("*", [2])] { type := "foo" } =
      ([(1, { type := "foo" })], true) := by
  rfl

/-- C3 amended: dispatch is not isolated per listener.  When no listener
raises, every listener under the event's type and then under the wildcard
label is invoked in order with the event; but when a listener raises, the
listeners after it are not invoked and the exception escapes `emit`
uncaught (for inbound messages it is caught only by the message handler's
outer try/catch). -/
theorem emit_abort_on_throw (throws : ℕ → Bool) (reg : Registry) (e : RealtimeEvent) :
    ((∀ h ∈ lookupHandlers reg e.type ++ lookupHandlers reg "*", throws h = false) →
      emit throws reg e =
        ((lookupHandlers reg e.type ++ lookupHandlers reg "*").map fun h => (h, e), false)) ∧
    (∀ l1 t l2, lookupHandlers reg e.type = l1 ++ t :: l2 →
      (∀ h ∈ l1, throws h = false) → throws t = true →
      emit throws reg e = (l1.map (fun h => (h, e)) ++ [(t, e)], true)) := by
  constructor
  · intro hall
    have h1 : ∀ h ∈ lookupHandlers reg e.type, throws h = false := by
      intro h hh; exact hall h (by simp [hh])
    have h2 : ∀ h ∈ lookupHandlers reg "*", throws h = false := by
      intro h hh; exact hall h (by simp [hh])
    simp [emit, runHandlers_no_throw throws e _ h1, runHandlers_no_throw throws e _ h2]
  · intro l1 t l2 hsplit hpre ht
    rw [emit, hsplit, runHandlers_throw throws e t l2 ht l1 hpre]
    simp

/-- Witness for `emit_abort_on_throw`: listener `3` under type `"a"`
raises at once, so the registered wildcard listener `4` is skipped and the
exception escapes. -/
theorem emit_abort_on_throw_witness :
    emit (fun n => n == 3) [("a", [3]), ("*", [4])] { type := "a" } =
      ([(3, { type := "a" })], true) :=
  (emit_abort_on_throw (fun n => n == 3) [("a", [3]), ("*", [4])] { type := "a" }).2
    [] 3 [] rfl (by simp) rfl

/-- C4 counterexample: with the socket `OPEN`, one capture tick on a
one-sample block transmits exactly one event, and that event carries no
`event_id` — the capture path serializes over raw `ws.send`, bypassing
`sendEvent` and its identifier assignment. -/
theorem captureSend_missing_id_counterexample :
    ((onaudioprocess (some WSReadyState.OPEN) 0 [(0 : ℚ)]).2.map RealtimeEvent.event_id)
      = [none] := by
  rfl

/-- C4 amended: `sendEvent` assigns exactly one generated identifier to an
outbound event that lacks one and transmits an event that already carries
one unchanged, but the audio blocks sent by the capture pipeline bypass
`sendEvent` and are transmitted with no `event_id` at all. -/
theorem sendEvent_id_assignment (wsState : Option WSReadyState) (uuid : String)
    (e : RealtimeEvent) :
    (e.event_id = none →
      sendEvent wsState uuid e =
        if wsState = some WSReadyState.OPEN then [{ e with event_id := some uuid }] else []) ∧
    (∀ i : String, e.event_id = some i →
      sendEvent wsState uuid e =
        if wsState = some WSReadyState.OPEN then [e] else []) ∧
    (∀ (count : ℕ) (block : List ℚ),
      ∀ m ∈ (onaudioprocess wsState count block).2, m.event_id = none) := by
  refine ⟨?_, ?_, ?_⟩
  · intro hid
    simp [sendEvent, hid]
  · intro i hid
    simp [sendEvent, hid]
  · intro count block m hm
    revert hm
    simp only [onaudioprocess]
    split_ifs <;> intro hm <;> simp_all

/-- Witness for `sendEvent_id_assignment`: an `OPEN` send of an event
without `event_id` transmits it stamped with the generated identifier. -/
theorem sendEvent_id_assignment_witness :
    sendEvent (some WSReadyState.OPEN) "u1" { type := "t" } =
      [{ type := "t", event_id := some "u1" }] :=
  (sendEvent_id_assignment (some WSReadyState.OPEN) "u1" { type := "t" }).1 rfl

/-! ## Base64 -/

/-- The alphabet lookup inverts the character lookup on sextet values. -/
theorem charSextet_sextetChar : ∀ n < 64, charSextet (sextetChar n) = n := by
  decide

/-- No sextet value encodes to the padding character. -/
theorem sextetChar_ne_pad : ∀ n < 64, sextetChar n ≠ '=' := by
  decide

/-- The base64 decoder is a left inverse of the encoder on byte lists. -/
theorem atob_btoa : ∀ bytes : List ℕ, (∀ b ∈ bytes, b < 256) →
    atobAux (btoaAux bytes) = bytes
  | [], _ => rfl
  | [b0], h => by
    have hb0 : b0 < 256 := h b0 (by simp)
    simp only [btoaAux, atobAux, if_pos]
    rw [charSextet_sextetChar _ (by omega), charSextet_sextetChar _ (by omega)]
    simp only [List.cons.injEq, and_true]
    omega
  | [b0, b1], h => by
    have hb0 : b0 < 256 := h b0 (by simp)
    have hb1 : b1 < 256 := h b1 (by simp)
    simp only [btoaAux, atobAux]
    rw [if_neg (sextetChar_ne_pad _ (by omega))]
    simp only [if_true]
    rw [charSextet_sextetChar _ (by omega), charSextet_sextetChar _ (by omega),
      charSextet_sextetChar _ (by omega)]
    simp only [List.cons.injEq, and_true]
    omega
  | b0 :: b1 :: b2 :: rest, h => by
    have hb0 : b0 < 256 := h b0 (by simp)
    have hb1 : b1 < 256 := h b1 (by simp)
    have hb2 : b2 < 256 := h b2 (by simp)
    have ih := atob_btoa rest (fun b hb => h b (by simp [hb]))
    simp only [btoaAux, atobAux]
    rw [if_neg (sextetChar_ne_pad _ (by omega)), if_neg (sextetChar_ne_pad _ (by omega))]
    rw [charSextet_sextetChar _ (by omega), charSextet_sextetChar _ (by omega),
      charSextet_sextetChar _ (by omega), charSextet_sextetChar _ (by omega)]
    rw [ih]
    simp only [List.cons.injEq, and_true]
    refine ⟨by omega, by omega, by omega⟩

/-- Every byte the PCM16 buffer layout produces is below 256. -/
theorem int16ToBytesLE_lt (v : ℤ) : ∀ b ∈ int16ToBytesLE v, b < 256 := by
  intro b hb
  simp only [int16ToBytesLE, List.mem_cons, List.mem_singleton] at hb
  have hm : v % 65536 < 65536 := Int.emod_lt_of_pos v (by norm_num)
  have hm0 : 0 ≤ v % 65536 := Int.emod_nonneg v (by norm_num)
  rcases hb with hb | hb | hb
  · omega
  · have : (v % 65536).toNat < 65536 := by omega
    omega
  · simp at hb

/-- C9: the base64 wire-text round-trip is lossless: decoding the encoding
of any byte sequence (the empty one included) returns the sequence
exactly. -/
theorem base64_roundtrip (bytes : List ℕ) (h : ∀ b ∈ bytes, b < 256) :
    base64ToArrayBuffer (arrayBufferToBase64 bytes) = bytes :=
  atob_btoa bytes h

/-- Witness for `base64_roundtrip` on a concrete byte list whose length
exercises both a full 3-byte group and a padded tail. -/
theorem base64_roundtrip_witness :
    (∀ b ∈ [0, 255, 7, 42], b < 256) ∧
    base64ToArrayBuffer (arrayBufferToBase64 [0, 255, 7, 42]) = [0, 255, 7, 42] :=
  ⟨by decide, base64_roundtrip [0, 255, 7, 42] (by decide)⟩

/-- C8: each capture block-ready tick increments the packet counter; when
the socket is not `OPEN` the block is dropped with nothing transmitted
(and nothing buffered anywhere — the handler touches no queue); when it is
`OPEN` the tick transmits exactly the `input_audio_buffer.append` event
whose `audio` field is the base64 wire text of the codec-encoded block,
and that wire text decodes back to the encoded PCM16 bytes. -/
theorem onaudioprocess_behavior (wsState : Option WSReadyState) (count : ℕ)
    (block : List ℚ) :
    (onaudioprocess wsState count block).1 = count + 1 ∧
    ((onaudioprocess wsState count block).2 =
      if wsState = some WSReadyState.OPEN then
        [{ type := "input_audio_buffer.append",
           audio := some (arrayBufferToBase64 (convertFloat32ToPCM16 block)) }]
      else []) ∧
    base64ToArrayBuffer (arrayBufferToBase64 (convertFloat32ToPCM16 block))
      = convertFloat32ToPCM16 block := by
  refine ⟨?_, ?_, ?_⟩
  · simp only [onaudioprocess]
    split_ifs <;> rfl
  · simp only [onaudioprocess]
    split_ifs <;> rfl
  · refine atob_btoa _ ?_
    intro b hb
    simp only [convertFloat32ToPCM16, List.mem_flatMap] at hb
    obtain ⟨v, _, hv⟩ := hb
    exact int16ToBytesLE_lt v b hv

/-! ## Playback queue -/

/-- The chunks enqueued by `op :: rest` split as those of `[op]` followed
by those of `rest`. -/
theorem enqueuedOf_cons (op : PlayerOp) (rest : List PlayerOp) :
    enqueuedOf (op :: rest) = enqueuedOf [op] ++ enqueuedOf rest := by
  cases op <;> simp [enqueuedOf]

/-- One player step preserves the flag/outstanding coincidence and the
no-double-start latch, and extends the ledger by the step's arrivals. -/
theorem playerStep_inv (s : PlayerState) (op : PlayerOp)
    (h1 : s.isPlaying = s.outstanding) (h2 : s.doubleStart = false) :
    ((playerStep s op).startedLog ++ (playerStep s op).audioQueue
        = s.startedLog ++ s.audioQueue ++ enqueuedOf [op]) ∧
    (playerStep s op).isPlaying = (playerStep s op).outstanding ∧
    (playerStep s op).doubleStart = false := by
  rcases s with ⟨q, p, log, outd, ds⟩
  simp only at h1 h2
  subst h1 h2
  rcases op with c | _
  · by_cases hp : p
    · subst hp
      simp [playerStep, queueAudio, enqueuedOf]
    · simp only [Bool.not_eq_true] at hp
      subst hp
      cases q with
      | nil => simp [playerStep, queueAudio, playNextAudioChunk, enqueuedOf]
      | cons d t => simp [playerStep, queueAudio, playNextAudioChunk, enqueuedOf]
  · by_cases hp : p
    · subst hp
      cases q with
      | nil => simp [playerStep, playNextAudioChunk, enqueuedOf]
      | cons d t => simp [playerStep, playNextAudioChunk, enqueuedOf]
    · simp only [Bool.not_eq_true] at hp
      subst hp
      simp [playerStep, enqueuedOf]

/-- Running the player preserves the flag/outstanding coincidence and the
no-double-start latch, and maintains the ledger: chunks started (in start
order) followed by chunks still pending equal the chunks already present
followed by the new arrivals in arrival order. -/
theorem playerRun_ledger (ops : List PlayerOp) : ∀ s : PlayerState,
    s.isPlaying = s.outstanding → s.doubleStart = false →
    ((playerRun s ops).startedLog ++ (playerRun s ops).audioQueue
        = s.startedLog ++ s.audioQueue ++ enqueuedOf ops) ∧
    (playerRun s ops).isPlaying = (playerRun s ops).outstanding ∧
    (playerRun s ops).doubleStart = false := by
  induction ops with
  | nil =>
    intro s h1 h2
    simp [playerRun, enqueuedOf, h1, h2]
  | cons op rest ih =>
    intro s h1 h2
    have hstep := playerStep_inv s op h1 h2
    have hrec := ih (playerStep s op) hstep.2.1 hstep.2.2
    refine ⟨?_, hrec.2.1, hrec.2.2⟩
    have hrun : playerRun s (op :: rest) = playerRun (playerStep s op) rest := rfl
    rw [hrun, hrec.1, hstep.1, enqueuedOf_cons]
    cases op <;> simp [enqueuedOf, List.append_assoc]

/-- C5: for every sequence of chunk arrivals and playback completions, the
chunks whose playback began form (in order) a prefix of the arrival order
(strict FIFO: started chunks followed by still-queued chunks reconstruct
the arrival sequence exactly), the `isPlaying` flag is true exactly when a
playback start has been issued whose completion has not yet fired, and no
start is ever issued while another playback is outstanding. -/
theorem playback_fifo_and_flag (ops : List PlayerOp) :
    ((playerRun initPlayer ops).startedLog ++ (playerRun initPlayer ops).audioQueue
        = enqueuedOf ops) ∧
    (playerRun initPlayer ops).isPlaying = (playerRun initPlayer ops).outstanding ∧
    (playerRun initPlayer ops).doubleStart = false ∧
    (playerRun initPlayer ops).startedLog
        = (enqueuedOf ops).take (playerRun initPlayer ops).startedLog.length := by
  have h := playerRun_ledger ops initPlayer rfl rfl
  have hled : (playerRun initPlayer ops).startedLog ++ (playerRun initPlayer ops).audioQueue
      = enqueuedOf ops := by
    rw [h.1]
    simp [initPlayer]
  refine ⟨hled, h.2.1, h.2.2, ?_⟩
  rw [← hled, List.take_left]

/-! ## Codec -/

/-- The 16-bit wrap is the identity on values already in the signed 16-bit
range. -/
theorem toInt16_eq_of_bounds (n : ℤ) (hlo : -32768 ≤ n) (hhi : n ≤ 32767) :
    toInt16 n = n := by
  simp only [toInt16]
  omega

/-- The clamp lands in `[-1, 1]`. -/
theorem clamp_mem (x : ℚ) : -1 ≤ max (-1) (min 1 x) ∧ max (-1) (min 1 x) ≤ 1 :=
  ⟨le_max_left _ _, max_le (by norm_num) (min_le_left _ _)⟩

/-- The encoded sample is the ceiling of the negatively-scaled clamp or
the floor of the positively-scaled clamp (JS truncation toward zero), the
16-bit wrap never fires, and the value stays in the signed 16-bit range. -/
theorem pcm16SampleInt_spec (x : ℚ) :
    pcm16SampleInt x =
      (if max (-1) (min 1 x) < 0 then ⌈max (-1) (min 1 x) * 32768⌉
       else ⌊max (-1) (min 1 x) * 32767⌋) ∧
    -32768 ≤ pcm16SampleInt x ∧ pcm16SampleInt x ≤ 32767 := by
  obtain ⟨hb1, hb2⟩ := clamp_mem x
  set s := max (-1) (min 1 x) with hs
  by_cases hneg : s < 0
  · have heq : pcm16SampleInt x = ⌈s * 32768⌉ := by
      have hqneg : s * 32768 < 0 := by linarith
      have hclo : (-32768 : ℤ) ≤ ⌈s * 32768⌉ := by
        have h1 : ((-32769 : ℤ) : ℚ) < s * 32768 := by push_cast; linarith
        have h2 := Int.lt_ceil.mpr h1
        omega
      have hchi : ⌈s * 32768⌉ ≤ 0 := Int.ceil_le.mpr (by push_cast; linarith)
      rw [pcm16SampleInt, ← hs, if_pos hneg, ratTrunc, if_pos hqneg]
      exact toInt16_eq_of_bounds _ hclo (by omega)
    have hclo : (-32768 : ℤ) ≤ ⌈s * 32768⌉ := by
      have h1 : ((-32769 : ℤ) : ℚ) < s * 32768 := by push_cast; linarith
      have h2 := Int.lt_ceil.mpr h1
      omega
    have hchi : ⌈s * 32768⌉ ≤ 0 := Int.ceil_le.mpr (by push_cast; linarith)
    rw [heq, if_pos hneg]
    exact ⟨rfl, hclo, by omega⟩
  · have hge : 0 ≤ s := not_lt.mp hneg
    have hqnn : 0 ≤ s * 32767 := by positivity
    have hflo : 0 ≤ ⌊s * 32767⌋ := Int.floor_nonneg.mpr hqnn
    have hfhi : ⌊s * 32767⌋ ≤ 32767 := by
      have h1 : (↑⌊s * 32767⌋ : ℚ) ≤ 32767 := le_trans (Int.floor_le _) (by linarith)
      exact_mod_cast h1
    have heq : pcm16SampleInt x = ⌊s * 32767⌋ := by
      rw [pcm16SampleInt, ← hs, if_neg hneg, ratTrunc, if_neg (not_lt.mpr hqnn)]
      exact toInt16_eq_of_bounds _ (by omega) hfhi
    rw [heq, if_neg hneg]
    exact ⟨rfl, by omega, hfhi⟩

/-- C6 counterexample: at the exactly-representable sample `1/2` the code
stores `16383` (truncation toward zero of `16383.5`), while rounding
toward the nearest integer as the claim states gives `16384`; hence the
code's encoder and the spec-worded rounding encoder differ on `[1/2]`. -/
theorem convertFloat32_truncates_counterexample :
    pcm16SampleInt (1/2) = 16383 ∧ round ((1/2 : ℚ) * 32767) = 16384 ∧
    convertFloat32ToPCM16 [1/2] ≠ encodeSamplesSpec [1/2] := by
  have hclamp : max (-1) (min 1 (1/2 : ℚ)) = 1/2 := by norm_num
  have hfloor : ⌊(1/2 : ℚ) * 32767⌋ = 16383 := by
    rw [Int.floor_eq_iff]
    constructor <;> push_cast <;> norm_num
  have hround : round ((1/2 : ℚ) * 32767) = 16384 := by
    rw [round_eq]
    have h1 : (1/2 : ℚ) * 32767 + 1/2 = ((16384 : ℤ) : ℚ) := by push_cast; norm_num
    rw [h1, Int.floor_intCast]
  have hsample : pcm16SampleInt (1/2) = 16383 := by
    simp only [pcm16SampleInt, hclamp, ratTrunc]
    rw [if_neg (by norm_num : ¬((1/2 : ℚ) < 0)),
      if_neg (by norm_num : ¬((1/2 : ℚ) * 32767 < 0)), hfloor]
    exact toInt16_eq_of_bounds _ (by norm_num) (by norm_num)
  have hcodeenc : convertFloat32ToPCM16 [1/2] = int16ToBytesLE 16383 := by
    simp only [convertFloat32ToPCM16, List.map_cons, List.map_nil, List.flatMap_cons,
      List.flatMap_nil, hsample, List.append_nil]
  have hspecenc : encodeSamplesSpec [1/2] = int16ToBytesLE (toInt16 16384) := by
    simp only [encodeSamplesSpec, List.map_cons, List.map_nil, List.flatMap_cons,
      List.flatMap_nil, hclamp, List.append_nil]
    rw [if_neg (by norm_num : ¬((1/2 : ℚ) < 0)), hround]
  refine ⟨hsample, hround, ?_⟩
  rw [hcodeenc, hspecenc]
  decide

/-- C6 amended: `convertFloat32ToPCM16` clamps each sample to `[-1, 1]`,
scales negative values by `32768` and non-negative ones by `32767`,
truncates toward zero (not rounds to nearest), and stores the value as a
signed 16-bit little-endian pair; the wrap never alters the value, which
always lies in `[-32768, 32767]`.  The function is pure, hence
deterministic and side-effect free. -/
theorem convertFloat32ToPCM16_characterization (xs : List ℚ) :
    convertFloat32ToPCM16 xs =
      (xs.map fun x =>
        if max (-1) (min 1 x) < 0 then ⌈max (-1) (min 1 x) * 32768⌉
        else ⌊max (-1) (min 1 x) * 32767⌋).flatMap int16ToBytesLE ∧
    ∀ x : ℚ, -32768 ≤ pcm16SampleInt x ∧ pcm16SampleInt x ≤ 32767 := by
  constructor
  · rw [convertFloat32ToPCM16,
      List.map_congr_left fun x _ => (pcm16SampleInt_spec x).1]
  · exact fun x => (pcm16SampleInt_spec x).2

/-- Reading back the little-endian byte pair of an in-range 16-bit value
recovers the value. -/
theorem bytesToInt16s_cons (v : ℤ) (rest : List ℕ)
    (hlo : -32768 ≤ v) (hhi : v ≤ 32767) :
    bytesToInt16s (int16ToBytesLE v ++ rest) = v :: bytesToInt16s rest := by
  simp only [int16ToBytesLE, List.cons_append, List.nil_append, bytesToInt16s, toInt16,
    List.cons.injEq]
  refine ⟨?_, rfl⟩
  split_ifs <;> omega

/-- Encoding then decoding one in-range sample moves it by at most the
16-bit quantization step `1/32767`. -/
theorem sample_quantization (x : ℚ) (h1 : -1 ≤ x) (h2 : x ≤ 1) :
    |x - pcm16ToFloat (pcm16SampleInt x)| ≤ 1 / 32767 := by
  have hclamp : max (-1) (min 1 x) = x := by rw [min_eq_right h2, max_eq_right h1]
  have hspec := (pcm16SampleInt_spec x).1
  rw [hclamp] at hspec
  by_cases hx : x < 0
  · rw [if_pos hx] at hspec
    have hvle : pcm16SampleInt x ≤ 0 := by
      rw [hspec]; exact Int.ceil_le.mpr (by push_cast; linarith)
    have hvq : x * 32768 ≤ ((pcm16SampleInt x : ℤ) : ℚ) := by
      rw [hspec]; exact Int.le_ceil _
    have hvq2 : ((pcm16SampleInt x : ℤ) : ℚ) < x * 32768 + 1 := by
      rw [hspec]; exact Int.ceil_lt_add_one _
    by_cases hv : pcm16SampleInt x < 0
    · rw [pcm16ToFloat, if_pos hv]
      have hkey : x - (pcm16SampleInt x : ℚ) / 32768
          = (x * 32768 - pcm16SampleInt x) / 32768 := by ring
      rw [hkey, abs_div, abs_of_nonneg (by norm_num : (0:ℚ) ≤ 32768),
        div_le_div_iff₀ (by norm_num) (by norm_num)]
      have habs : |x * 32768 - (pcm16SampleInt x : ℚ)| ≤ 1 := by
        rw [abs_le]; constructor <;> linarith
      nlinarith [habs, abs_nonneg (x * 32768 - (pcm16SampleInt x : ℚ))]
    · have hv0 : pcm16SampleInt x = 0 := le_antisymm hvle (not_lt.mp hv)
      have hdec : pcm16ToFloat (pcm16SampleInt x) = 0 := by
        rw [hv0, pcm16ToFloat]; norm_num
      rw [hdec, sub_zero, abs_of_neg hx]
      rw [hv0] at hvq2
      push_cast at hvq2
      linarith
  · rw [if_neg hx] at hspec
    have hx0 : 0 ≤ x := not_lt.mp hx
    have hfl : ((pcm16SampleInt x : ℤ) : ℚ) ≤ x * 32767 := by
      rw [hspec]; exact Int.floor_le _
    have hfg : x * 32767 < ((pcm16SampleInt x : ℤ) : ℚ) + 1 := by
      rw [hspec]; exact Int.lt_floor_add_one _
    have hvnn : 0 ≤ pcm16SampleInt x := by
      rw [hspec]; exact Int.floor_nonneg.mpr (by positivity)
    rw [pcm16ToFloat, if_neg (not_lt.mpr hvnn)]
    have hkey : x - (pcm16SampleInt x : ℚ) / 32767
        = (x * 32767 - pcm16SampleInt x) / 32767 := by ring
    rw [hkey, abs_div, abs_of_nonneg (by norm_num : (0:ℚ) ≤ 32767),
      div_le_div_iff₀ (by norm_num) (by norm_num)]
    have habs : |x * 32767 - (pcm16SampleInt x : ℚ)| ≤ 1 := by
      rw [abs_le]; constructor <;> linarith
    nlinarith [habs, abs_nonneg (x * 32767 - (pcm16SampleInt x : ℚ))]

/-- Decoding the encoding of `x :: t` splits into the decoded head sample
followed by the decoded tail. -/
theorem decodeSamples_encode_cons (x : ℚ) (t : List ℚ) :
    decodeSamples (convertFloat32ToPCM16 (x :: t))
      = pcm16ToFloat (pcm16SampleInt x) :: decodeSamples (convertFloat32ToPCM16 t) := by
  have hb := (pcm16SampleInt_spec x).2
  simp only [convertFloat32ToPCM16, List.map_cons, List.flatMap_cons, decodeSamples]
  rw [bytesToInt16s_cons _ _ hb.1 hb.2]
  simp

/-- C7: for samples in `[-1, 1]`, decoding the PCM16 encoding returns a
sequence of the same length whose entries differ from the originals by at
most the 16-bit quantization error `1/32767` in magnitude. -/
theorem decode_encode_quantization (xs : List ℚ) (h : ∀ x ∈ xs, -1 ≤ x ∧ x ≤ 1) :
    List.Forall₂ (fun x y => |x - y| ≤ 1 / 32767) xs
      (decodeSamples (convertFloat32ToPCM16 xs)) := by
  induction xs with
  | nil => exact List.Forall₂.nil
  | cons x t ih =>
    rw [decodeSamples_encode_cons]
    have hx := h x (by simp)
    exact List.Forall₂.cons (sample_quantization x hx.1 hx.2)
      (ih fun y hy => h y (by simp [hy]))

/-- Witness for `decode_encode_quantization` on the one-sample list
`[1/2]`. -/
theorem decode_encode_quantization_witness :
    (∀ x ∈ [(1/2 : ℚ)], -1 ≤ x ∧ x ≤ 1) ∧
    List.Forall₂ (fun x y => |x - y| ≤ 1 / 32767) [(1/2 : ℚ)]
      (decodeSamples (convertFloat32ToPCM16 [(1/2 : ℚ)])) :=
  ⟨fun x hx => by rw [List.mem_singleton] at hx; subst hx; constructor <;> norm_num,
   decode_encode_quantization [(1/2 : ℚ)]
     (fun x hx => by rw [List.mem_singleton] at hx; subst hx; constructor <;> norm_num)⟩
